import Mathlib

/-!
# Verification of the Derecho multicast-group core against its specification

This file gives a shallow embedding of the ordering/delivery pipeline of
`src/derecho/multicast_group.cpp` (class `MulticastGroup`) and of the CLI tool
`src/derecho/create_state_file.cpp`, and proves or refutes the specification
claims about them.

Conventions of the embedding:
* machine integers (`long long int`) are modelled as `ℤ`; sizes and counts as `ℕ`
  (no overflow is relevant to any claim: all quantities stay tiny);
* the SST row segments indexed by shard member or sender rank are modelled as
  functions `Fin k → ℤ` or as `List ℤ`;
* `std::map` message queues are modelled either as lookup functions
  `ℤ → Option Msg` (find/erase semantics) or as `Finset ℤ` of keys;
* C++ callbacks/side effects are modelled by returning explicit effect records.
-/

namespace Derecho

/-- Size in bytes of the wire `header` struct (`header_size:u32 | index:i64 |
pause_sending_turns:u32 | cooked_send:bool`, 17 bytes before padding).  The
exact value is irrelevant to every claim; only the branch structure of the
code that adds or strips it matters, plus the fact that it is positive. -/
def headerSize : ℕ := 17

/-- Modelled from the spec: `get_num_senders` is declared in
`multicast_group.h` (not under `src/`).  Per the spec's data model the
sender bitmap of a shard is a vector of ints and `num_shard_senders` is the
number of senders, i.e. the number of nonzero entries of the bitmap; the rank
increments in `deliver_message` (lines 556-561) corroborate this reading. -/
def get_num_senders (shard_senders : List ℤ) : ℕ :=
  (shard_senders.filter (fun x => x != 0)).length

/-! ## The file-written callback's sequence-number computation (C4)

`MulticastGroup::make_file_written_callback` (multicast_group.cpp lines
303-329) computes the rank of `m.sender` by scanning the *group* member list
`members`, and the sequence number as `m.index * num_members + sender_rank`.
`deliver_message` (lines 531-569), which inserted the entry into
`non_persistent_messages`, keys it by `index * num_shard_senders +
sender_rank-within-the-shard's-senders` instead. -/

/-- Mirrors lines 308-311: `for(sender_rank = 0; sender_rank < num_members;
++sender_rank) if(members[sender_rank] == m.sender) break;` — the scan position
when the loop exits (list length when the sender is absent). -/
def callbackSenderRank : List ℕ → ℕ → ℕ
  | [], _ => 0
  | x :: xs, sender => if x = sender then 0 else callbackSenderRank xs sender + 1

/-- Mirrors line 314: `auto sequence_number = m.index * num_members + sender_rank;`. -/
def fileWrittenSequenceNumber (members : List ℕ) (sender : ℕ) (index : ℤ) : ℤ :=
  index * members.length + callbackSenderRank members sender

/-- Mirrors lines 555-561 of `deliver_message`: scan the shard member list,
counting the sender flags seen before the sender's own position. -/
def deliverSenderRank : List ℕ → List ℤ → ℕ → ℕ
  | [], _, _ => 0
  | _ :: _, [], _ => 0
  | mbr :: mbrs, sd :: sds, sender =>
    if mbr = sender then 0
    else (if sd != 0 then 1 else 0) + deliverSenderRank mbrs sds sender

/-- Mirrors line 562: `auto sequence_number = msg.index * num_shard_senders +
sender_rank;` — the key under which `deliver_message` stores the message in
`non_persistent_messages`. -/
def deliverMessageSequenceNumber (shard_members : List ℕ) (shard_senders : List ℤ)
    (sender : ℕ) (index : ℤ) : ℤ :=
  index * get_num_senders shard_senders + deliverSenderRank shard_members shard_senders sender

/-- Mirrors lines 314-322 of the file-written callback: compute the sequence
number, look it up in `non_persistent_messages` (here: its key list); on a hit
the callback erases the entry and assigns `persisted_num := sequence_number`
(returned as `some`); a miss trips `assert(find_result != ...end())`, modelled
as `none`. -/
def fileWrittenCallback (members : List ℕ) (np_keys : List ℤ)
    (sender : ℕ) (index : ℤ) : Option ℤ :=
  let seq := fileWrittenSequenceNumber members sender index
  if seq ∈ np_keys then some seq else none

/-! ## The `create_state_file` CLI tool (C9) -/

/-- Outcome of a fallible library call. -/
inductive CallOutcome (α : Type) : Type
  | ok (a : α)
  | ioError
deriving DecidableEq

/-- How a process run ends: a `return` from `main` with an exit code, or
abnormal termination (an exception escaping `main`). -/
inductive ExitResult : Type
  | code (c : ℕ)
  | abnormal
deriving DecidableEq

/-- Mirrors `main` of `src/derecho/create_state_file.cpp` (lines 15-25):
`if(argc < 2) return 1;` then `parse_view(std::cin)`, `persist_object(...)`,
`return 0;`.  Modelled from the spec: `parse_view` and `persist_object`
(declared in `view.h`/`persistence.h`, whose definitions are not under
`src/`) parse/serialize a View and can fail on an I/O error; `main` wraps
neither call in a try-block, so a failure propagates out of `main`
(abnormal termination); neither call exits the process itself.  The parsed
view is abstracted to an opaque token. -/
def createStateFileMain (args : List String) (parsedView : CallOutcome ℕ)
    (persistOutcome : ℕ → CallOutcome Unit) : ExitResult :=
  if args.length < 2 then .code 1
  else
    match parsedView with
    | .ioError => .abnormal
    | .ok v =>
      match persistOutcome v with
      | .ioError => .abnormal
      | .ok _ => .code 0

/-! ## MulticastGroup state and public operations (C3, C7, C8, C10)

The slice of `MulticastGroup` state that `get_sendbuffer_ptr` (lines
1070-1164), `send` (1166-1183), the sender-thread admission check
`should_send_to_subgroup` (971-1017) and `wedge` (934-966) read or write,
restricted to one subgroup whose shard has `k` members.  Per-shard-member SST
columns are functions `Fin k → ℤ` (rows restricted to the shard, i.e. already
composed with `node_id_to_sst_index ∘ shard_members`). -/

structure MGState (k : ℕ) : Type where
  /-- Set by the constructor when `create_rdmc_sst_groups` succeeded. -/
  rdmc_sst_groups_created : Bool
  /-- The atomic wedge flag. -/
  thread_shutdown : Bool
  /-- `subgroup_to_mode.at(subgroup_num) == Mode::RAW`. -/
  mode_raw : Bool
  /-- `file_writer` is non-null (persistence enabled). -/
  has_file_writer : Bool
  window_size : ℕ
  num_shard_senders : ℕ
  /-- `shard_sender_index`: this node's rank among the shard's senders. -/
  shard_sender_index : ℤ
  max_msg_size : ℕ
  /-- `future_message_indices[subgroup_num]`. -/
  future_message_index : ℤ
  /-- `sst->delivered_num[·][subgroup_num]` over the shard members. -/
  delivered_num : Fin k → ℤ
  /-- `sst->persisted_num[·][subgroup_num]` over the shard members. -/
  persisted_num : Fin k → ℤ
  /-- `sst->num_received[·][num_received_offset + shard_sender_index]`. -/
  num_received_sender : Fin k → ℤ
  /-- `free_message_buffers[subgroup_num].size()`. -/
  free_buffers : ℕ
  /-- Whether `sst_multicast_group_ptrs[subgroup]->get_buffer(...)` has a slot. -/
  slot_buffer_available : Bool
  sender_pred_handles : List ℕ
  receiver_pred_handles : List ℕ
  stability_pred_handles : List ℕ
  delivery_pred_handles : List ℕ
  /-- Handles currently registered in `sst->predicates`. -/
  sst_predicates : List ℕ
  /-- Whether `rdmc::destroy_group` has been issued for the group's RDMC groups. -/
  rdmc_groups_destroyed : Bool

/-- The flow-control bound `(msgIndex - window_size) * num_shard_senders +
shard_sender_index` used by `should_send_to_subgroup` (lines 1002-1003, with
`msgIndex = msg.index`) and by `get_sendbuffer_ptr` (line 1107, with
`msgIndex = future_message_indices[subgroup_num]`). -/
def deliveredBound {k : ℕ} (s : MGState k) (msgIndex : ℤ) : ℤ :=
  (msgIndex - s.window_size) * s.num_shard_senders + s.shard_sender_index

/-- Mirrors `get_sendbuffer_ptr` lines 1078-1085: `msg_size = payload_size +
sizeof(header)`, overridden to `max_msg_size` when `payload_size == 0`, and to
`sizeof(header)` when `null_send`. -/
def computeMsgSize {k : ℕ} (s : MGState k) (payload : ℕ) (null_send : Bool) : ℕ :=
  let msg_size := payload + headerSize
  let msg_size := if payload = 0 then s.max_msg_size else msg_size
  if null_send then headerSize else msg_size

/-- Mirrors `MulticastGroup::get_sendbuffer_ptr` (lines 1070-1164).  Returns
`none` for the code's `nullptr` returns, and `some msg_size` when a buffer is
handed out (the buffer pointer itself is immaterial; the allocated message
size is returned as the token). -/
def get_sendbuffer_ptr {k : ℕ} (s : MGState k) (payload : ℕ)
    (transfer_medium null_send : Bool) : Option ℕ :=
  if !s.rdmc_sst_groups_created then none
  else
    let msg_size := computeMsgSize s payload null_send
    if msg_size > s.max_msg_size then none
    else if (if !s.mode_raw then
        (List.finRange k).any fun i =>
          decide (s.delivered_num i < deliveredBound s s.future_message_index)
      else
        (List.finRange k).any fun i =>
          decide (s.num_received_sender i < s.future_message_index - s.window_size))
    then none
    else if s.thread_shutdown then none
    else if transfer_medium then
      if s.free_buffers = 0 then none else some msg_size
    else
      if s.slot_buffer_available then some msg_size else none

/-- Mirrors the sender thread's `should_send_to_subgroup` (lines 971-1017)
for this subgroup: `pending_empty` is `pending_sends[subgroup].empty()`,
`msgIndex` is `pending_sends[subgroup].front().index`, and
`num_received_self` is this node's own
`num_received[member_index][offset + shard_sender_index]` (line 993). -/
def should_send_to_subgroup {k : ℕ} (s : MGState k) (pending_empty : Bool)
    (msgIndex num_received_self : ℤ) : Bool :=
  if !s.rdmc_sst_groups_created then false
  else if pending_empty then false
  else if num_received_self < msgIndex - 1 then false
  else if !s.mode_raw then
    !((List.finRange k).any fun i =>
        decide (s.delivered_num i < deliveredBound s msgIndex) ||
          (s.has_file_writer && decide (s.persisted_num i < deliveredBound s msgIndex)))
  else
    !((List.finRange k).any fun i =>
        decide (s.num_received_sender i < s.future_message_index - 1 - s.window_size))

/-- Mirrors `sst->predicates.remove(handle)` (idempotent removal of one
registered handle). -/
def predicates_remove (store : List ℕ) (h : ℕ) : List ℕ := store.erase h

/-- Mirrors `MulticastGroup::wedge` (lines 934-966): an already-set
`thread_shutdown` flag makes the call return immediately; otherwise the flag
is set, the four predicate-handle lists are drained (each handle removed from
the SST's predicate registry), the RDMC groups are destroyed, and the sender
thread is notified and joined (the condition variable and the join have no
observable effect on this state slice beyond `rdmc_groups_destroyed`). -/
def wedge {k : ℕ} (s : MGState k) : MGState k :=
  if s.thread_shutdown then s
  else
    let st1 := s.sender_pred_handles.foldl predicates_remove s.sst_predicates
    let st2 := s.receiver_pred_handles.foldl predicates_remove st1
    let st3 := s.stability_pred_handles.foldl predicates_remove st2
    let st4 := s.delivery_pred_handles.foldl predicates_remove st3
    { s with
      thread_shutdown := true
      sender_pred_handles := []
      receiver_pred_handles := []
      stability_pred_handles := []
      delivery_pred_handles := []
      sst_predicates := st4
      rdmc_groups_destroyed := true }

/-- Mirrors `MulticastGroup::send` (lines 1166-1183): fails when
`thread_shutdown || !rdmc_sst_groups_created`; otherwise commits the pending
message (queue push / slot send) and returns true. -/
def send {k : ℕ} (s : MGState k) : Bool :=
  if s.thread_shutdown || !s.rdmc_sst_groups_created then false else true

/-! ## Helper lemmas about draining predicate handles (for C7) -/

lemma not_mem_foldl_erase_of_not_mem {x : ℕ} :
    ∀ (l store : List ℕ), x ∉ store → x ∉ l.foldl predicates_remove store
  | [], _, hx => hx
  | a :: t, store, hx => by
    simp only [List.foldl_cons]
    exact not_mem_foldl_erase_of_not_mem t _
      (fun hmem => hx ((store.erase_sublist a).mem hmem))

lemma nodup_foldl_erase :
    ∀ (l store : List ℕ), store.Nodup → (l.foldl predicates_remove store).Nodup
  | [], _, h => h
  | a :: t, store, h => by
    simp only [List.foldl_cons]
    exact nodup_foldl_erase t _ (h.erase a)

lemma not_mem_foldl_erase_of_mem {x : ℕ} :
    ∀ (l store : List ℕ), store.Nodup → x ∈ l → x ∉ l.foldl predicates_remove store
  | [], _, _, hx => absurd hx (List.not_mem_nil x)
  | a :: t, store, hnd, hx => by
    simp only [List.foldl_cons]
    rcases List.mem_cons.mp hx with h | h
    · subst h
      refine not_mem_foldl_erase_of_not_mem t _ (fun hmem => ?_)
      exact ((hnd.mem_erase_iff).mp hmem).1 rfl
    · exact not_mem_foldl_erase_of_mem t _ (hnd.erase a) h

/-! ## Flow-control gate lemmas (for C3) -/

lemma get_sendbuffer_ptr_none_of_delivered_gap {k : ℕ} (s : MGState k) (p : ℕ)
    (med ns : Bool) (i : Fin k) (hraw : s.mode_raw = false)
    (hlt : s.delivered_num i < deliveredBound s s.future_message_index) :
    get_sendbuffer_ptr s p med ns = none := by
  have hany : ((List.finRange k).any fun i =>
      decide (s.delivered_num i < deliveredBound s s.future_message_index)) = true :=
    List.any_eq_true.mpr ⟨i, List.mem_finRange i, decide_eq_true hlt⟩
  unfold get_sendbuffer_ptr
  rw [hraw]
  simp only [Bool.not_false, if_true, hany]
  split
  · rfl
  · split
    · rfl
    · rfl

lemma should_send_false_of_gap {k : ℕ} (s : MGState k) (pe : Bool)
    (msgIndex nrs : ℤ) (i : Fin k) (hraw : s.mode_raw = false)
    (hlt : s.delivered_num i < deliveredBound s msgIndex ∨
      (s.has_file_writer = true ∧ s.persisted_num i < deliveredBound s msgIndex)) :
    should_send_to_subgroup s pe msgIndex nrs = false := by
  have hany : ((List.finRange k).any fun i =>
      decide (s.delivered_num i < deliveredBound s msgIndex) ||
        (s.has_file_writer && decide (s.persisted_num i < deliveredBound s msgIndex))) = true := by
    refine List.any_eq_true.mpr ⟨i, List.mem_finRange i, ?_⟩
    rcases hlt with h | ⟨hfw, h⟩
    · simp [h]
    · simp [hfw, h]
  unfold should_send_to_subgroup
  rw [hraw]
  simp only [Bool.not_false, if_true, hany]
  split
  · rfl
  · split
    · rfl
    · split
      · rfl
      · rfl

/-! ## Theorems for C4 -/

/-- C4: the persistence-feedback claim is right about the intent and the code is
wrong.  With group members `[10, 20, 30]` and a subgroup whose shard is
`[20, 30]` with both members senders, a persisted message from node `30`
(shard sender rank 1, group rank 2) with per-sender index 1 is keyed
`1 * 2 + 1 = 3` in `non_persistent_messages` by `deliver_message`, but the
file-written callback computes `1 * 3 + 2 = 5` (it uses `num_members` and the
rank in the group member list), so its lookup misses and its own
`assert(find_result != non_persistent_messages[...].end())` fails; the
callback would also set `persisted_num` to 5, not to the message's sequence
number 3 claimed by the spec. -/
theorem C4_file_written_callback_bug :
    fileWrittenSequenceNumber [10, 20, 30] 30 1 = 5 ∧
    deliverMessageSequenceNumber [20, 30] [1, 1] 30 1 = 3 ∧
    fileWrittenSequenceNumber [10, 20, 30] 30 1 ≠
      deliverMessageSequenceNumber [20, 30] [1, 1] 30 1 ∧
    fileWrittenCallback [10, 20, 30] [3] 30 1 = none := by
  decide

/-! ## Theorems for C3 -/

/-- A one-member ordered-mode shard with persistence enabled in which every
member's `delivered_num` satisfies the window bound but `persisted_num` does
not: window 2, one sender (rank 0), next message index 3, so the bound is
`(3 - 2) * 1 + 0 = 1`; `delivered_num = 100 ≥ 1` but `persisted_num = -1 < 1`. -/
def c3State : MGState 1 where
  rdmc_sst_groups_created := true
  thread_shutdown := false
  mode_raw := false
  has_file_writer := true
  window_size := 2
  num_shard_senders := 1
  shard_sender_index := 0
  max_msg_size := 100
  future_message_index := 3
  delivered_num := fun _ => 100
  persisted_num := fun _ => -1
  num_received_sender := fun _ => 100
  free_buffers := 5
  slot_buffer_available := true
  sender_pred_handles := []
  receiver_pred_handles := []
  stability_pred_handles := []
  delivery_pred_handles := []
  sst_predicates := []
  rdmc_groups_destroyed := false

/-- C3 counterexample: in Ordered mode with persistence enabled, when the
`persisted_num` condition fails for a shard member (here `-1 < 1`, the bound),
`get_sendbuffer_ptr` still hands out a buffer (`some 27`, a 10-byte payload
plus the header) — it never examines `persisted_num`, contradicting the
claim that it returns null until a persistence callback advances it. -/
theorem C3_counterexample :
    c3State.mode_raw = false ∧
    c3State.has_file_writer = true ∧
    (∀ i : Fin 1, deliveredBound c3State c3State.future_message_index ≤
      c3State.delivered_num i) ∧
    (∃ i : Fin 1, c3State.persisted_num i <
      deliveredBound c3State c3State.future_message_index) ∧
    get_sendbuffer_ptr c3State 10 true false = some 27 := by
  decide

/-- C3 (amended): in Ordered mode, the *sender thread* admits a send of index
`i` only when every shard member satisfies both the `delivered_num` bound and
— when persistence is enabled — the `persisted_num` bound
(`should_send_to_subgroup`, lines 1000-1006); `get_sendbuffer_ptr` enforces
only the `delivered_num` bound (lines 1105-1110) and returns null when that
bound fails, regardless of `persisted_num`. -/
theorem C3_send_gate {k : ℕ} (s : MGState k) (pe : Bool) (msgIndex nrs : ℤ)
    (p : ℕ) (med ns : Bool) (hraw : s.mode_raw = false) :
    (should_send_to_subgroup s pe msgIndex nrs = true →
      ∀ i, deliveredBound s msgIndex ≤ s.delivered_num i ∧
        (s.has_file_writer = true → deliveredBound s msgIndex ≤ s.persisted_num i)) ∧
    (get_sendbuffer_ptr s p med ns ≠ none →
      ∀ i, deliveredBound s s.future_message_index ≤ s.delivered_num i) := by
  constructor
  · intro h i
    constructor
    · by_contra hlt
      rw [should_send_false_of_gap s pe msgIndex nrs i hraw
        (Or.inl (lt_of_not_le hlt))] at h
      exact absurd h (by simp)
    · intro hfw
      by_contra hlt
      rw [should_send_false_of_gap s pe msgIndex nrs i hraw
        (Or.inr ⟨hfw, lt_of_not_le hlt⟩)] at h
      exact absurd h (by simp)
  · intro h i
    by_contra hlt
    exact h (get_sendbuffer_ptr_none_of_delivered_gap s p med ns i hraw
      (lt_of_not_le hlt))

/-- Same shard as `c3State` but with `persisted_num` caught up, so the sender
thread's gate opens. -/
def c3StateOk : MGState 1 :=
  { c3State with persisted_num := fun _ => 100 }

/-- Witness for C3's amended theorem at a concrete state: both gate
conclusions evaluated on `c3StateOk` with message index 3. -/
theorem C3_send_gate_witness :
    (deliveredBound c3StateOk 3 ≤ c3StateOk.delivered_num 0 ∧
      (c3StateOk.has_file_writer = true →
        deliveredBound c3StateOk 3 ≤ c3StateOk.persisted_num 0)) ∧
    deliveredBound c3StateOk c3StateOk.future_message_index ≤
      c3StateOk.delivered_num 0 := by
  have h := C3_send_gate c3StateOk false 3 100 10 true false rfl
  exact ⟨h.1 (by decide) 0, h.2 (by decide) 0⟩

/-! ## Theorems for C7 and C8 -/

/-- A live (not yet wedged) group with four registered predicate handles plus
an unrelated handle 9 in the SST registry. -/
def c7State : MGState 1 where
  rdmc_sst_groups_created := true
  thread_shutdown := false
  mode_raw := false
  has_file_writer := false
  window_size := 3
  num_shard_senders := 1
  shard_sender_index := 0
  max_msg_size := 100
  future_message_index := 0
  delivered_num := fun _ => -1
  persisted_num := fun _ => -1
  num_received_sender := fun _ => -1
  free_buffers := 3
  slot_buffer_available := true
  sender_pred_handles := [1]
  receiver_pred_handles := [2]
  stability_pred_handles := [3]
  delivery_pred_handles := [4]
  sst_predicates := [1, 2, 3, 4, 9]
  rdmc_groups_destroyed := false

lemma wedge_thread_shutdown {k : ℕ} (s : MGState k) :
    (wedge s).thread_shutdown = true := by
  by_cases h : s.thread_shutdown <;> simp [wedge, h]

lemma get_sendbuffer_ptr_none_of_shutdown {k : ℕ} (s : MGState k) (p : ℕ)
    (med ns : Bool) (h : s.thread_shutdown = true) :
    get_sendbuffer_ptr s p med ns = none := by
  unfold get_sendbuffer_ptr
  split
  · rfl
  · simp only [h, if_true]
    split
    · rfl
    · split <;> split <;> rfl

/-- C7: once `wedge()` has run on a live group, `send` returns false,
`get_sendbuffer_ptr` returns null, the group's four predicate-handle lists are
emptied, and every handle that was registered has been removed from the SST's
predicate registry (so no receiver, stability, delivery or sender trigger of
this group can fire again). -/
theorem C7_wedged_group {k : ℕ} (s : MGState k) (p : ℕ) (med ns : Bool)
    (hlive : s.thread_shutdown = false) (hnodup : s.sst_predicates.Nodup) :
    send (wedge s) = false ∧
    get_sendbuffer_ptr (wedge s) p med ns = none ∧
    (wedge s).sender_pred_handles = [] ∧
    (wedge s).receiver_pred_handles = [] ∧
    (wedge s).stability_pred_handles = [] ∧
    (wedge s).delivery_pred_handles = [] ∧
    ∀ h ∈ s.sender_pred_handles ++ s.receiver_pred_handles ++
        s.stability_pred_handles ++ s.delivery_pred_handles,
      h ∉ (wedge s).sst_predicates := by
  refine ⟨?_, get_sendbuffer_ptr_none_of_shutdown _ p med ns (wedge_thread_shutdown s),
    ?_, ?_, ?_, ?_, ?_⟩
  · simp [send, wedge_thread_shutdown s]
  · simp [wedge, hlive]
  · simp [wedge, hlive]
  · simp [wedge, hlive]
  · simp [wedge, hlive]
  · intro h hmem
    have hpred : (wedge s).sst_predicates =
        s.delivery_pred_handles.foldl predicates_remove
          (s.stability_pred_handles.foldl predicates_remove
            (s.receiver_pred_handles.foldl predicates_remove
              (s.sender_pred_handles.foldl predicates_remove s.sst_predicates))) := by
      simp [wedge, hlive]
    rw [hpred]
    have hnd1 := nodup_foldl_erase s.sender_pred_handles _ hnodup
    have hnd2 := nodup_foldl_erase s.receiver_pred_handles _ hnd1
    have hnd3 := nodup_foldl_erase s.stability_pred_handles _ hnd2
    rcases List.mem_append.mp hmem with hmem' | h4
    · rcases List.mem_append.mp hmem' with hmem'' | h3
      · rcases List.mem_append.mp hmem'' with h1 | h2
        · exact not_mem_foldl_erase_of_not_mem _ _
            (not_mem_foldl_erase_of_not_mem _ _
              (not_mem_foldl_erase_of_not_mem _ _
                (not_mem_foldl_erase_of_mem _ _ hnodup h1)))
        · exact not_mem_foldl_erase_of_not_mem _ _
            (not_mem_foldl_erase_of_not_mem _ _
              (not_mem_foldl_erase_of_mem _ _ hnd1 h2))
      · exact not_mem_foldl_erase_of_not_mem _ _
          (not_mem_foldl_erase_of_mem _ _ hnd2 h3)
    · exact not_mem_foldl_erase_of_mem _ _ hnd3 h4

/-- Witness for C7 at the concrete group `c7State`: after wedging, sends fail,
buffers are refused, the handle lists are empty, and handles 1 and 4 are gone
from the SST registry. -/
theorem C7_wedged_group_witness :
    send (wedge c7State) = false ∧
    get_sendbuffer_ptr (wedge c7State) 10 true false = none ∧
    (wedge c7State).sender_pred_handles = [] ∧
    (wedge c7State).delivery_pred_handles = [] ∧
    1 ∉ (wedge c7State).sst_predicates ∧
    4 ∉ (wedge c7State).sst_predicates := by
  have h := C7_wedged_group c7State 10 true false rfl (by decide)
  exact ⟨h.1, h.2.1, h.2.2.1, h.2.2.2.2.2.1,
    h.2.2.2.2.2.2 1 (by decide), h.2.2.2.2.2.2 4 (by decide)⟩

/-- C8: re-entering `wedge()` is a no-op — a second call returns the state of
the first unchanged, and on an already-wedged group (`thread_shutdown`
already true) `wedge` returns immediately without modifying anything. -/
theorem C8_wedge_idempotent {k : ℕ} (s : MGState k) :
    wedge (wedge s) = wedge s ∧ (s.thread_shutdown = true → wedge s = s) := by
  constructor
  · by_cases h : s.thread_shutdown <;> simp [wedge, h]
  · intro h
    simp [wedge, h]

/-- Witness for C8 at the already-wedged group `wedge c7State`. -/
theorem C8_wedge_idempotent_witness :
    wedge (wedge (wedge c7State)) = wedge (wedge c7State) ∧
    wedge (wedge c7State) = wedge c7State := by
  refine ⟨(C8_wedge_idempotent (wedge c7State)).1, ?_⟩
  exact (C8_wedge_idempotent (wedge c7State)).2 (wedge_thread_shutdown c7State)

/-! ## Theorem for C10 -/

/-- C10: a call with `payload_size = 0` and `null_send = false` is not
rejected — the message size is silently set to `max_msg_size`, which does not
trip the oversize check — whereas `null_send = true` forces the message size
to exactly `sizeof(header)`, whatever the payload argument. -/
theorem C10_zero_payload_size {k : ℕ} (s : MGState k) (p : ℕ) :
    computeMsgSize s 0 false = s.max_msg_size ∧
    ¬ computeMsgSize s 0 false > s.max_msg_size ∧
    computeMsgSize s p true = headerSize := by
  refine ⟨by simp [computeMsgSize], ?_, by simp [computeMsgSize]⟩
  simp [computeMsgSize]

/-! ## Message delivery effects (C6)

`deliver_message` (RDMC overload, lines 531-569) dispatches a delivered
message to the RPC callback (cooked sends) or the global stability callback
(raw sends), and either enqueues it to the file writer (remembering it in
`non_persistent_messages`) or returns its buffer to the pool — but only when
`msg.size > 0`; a zero-size message produces no effect at all. -/

/-- An RDMC message as seen at delivery: sender id, per-sender index, total
size (header included; 0 for pause-turn placeholders), and the header's
`cooked_send` flag. -/
structure RdmcMsg : Type where
  sender_id : ℕ
  index : ℤ
  size : ℕ
  cooked : Bool
deriving DecidableEq, Repr

/-- The observable effects of one `deliver_message` call. -/
structure DeliverEffects : Type where
  /-- `rpc_callback(subgroup, sender, buf, payload_size)` invocations. -/
  rpc_calls : List (ℕ × ℕ)
  /-- `callbacks.global_stability_callback(subgroup, sender, index, buf, len)`
  invocations, recorded as (sender, index, payload length). -/
  stability_calls : List (ℕ × ℤ × ℕ)
  /-- Whether `file_writer->write_message` was called. -/
  writer_enqueued : Bool
  /-- Key inserted into `non_persistent_messages`, if any. -/
  np_key : Option ℤ
  /-- Whether the message buffer went back to `free_message_buffers`. -/
  buffer_freed : Bool
deriving DecidableEq, Repr

/-- Mirrors `MulticastGroup::deliver_message` (RDMC overload, lines 531-569). -/
def deliver_message (msg : RdmcMsg) (has_file_writer : Bool)
    (shard_members : List ℕ) (shard_senders : List ℤ) : DeliverEffects :=
  if 0 < msg.size then
    let base : DeliverEffects :=
      if msg.cooked then
        { rpc_calls := [(msg.sender_id, msg.size - headerSize)]
          stability_calls := []
          writer_enqueued := false, np_key := none, buffer_freed := false }
      else
        { rpc_calls := []
          stability_calls := [(msg.sender_id, msg.index, msg.size - headerSize)]
          writer_enqueued := false, np_key := none, buffer_freed := false }
    if has_file_writer then
      { base with
        writer_enqueued := true
        np_key := some (deliverMessageSequenceNumber shard_members shard_senders
          msg.sender_id msg.index) }
    else
      { base with buffer_freed := true }
  else
    { rpc_calls := [], stability_calls := [], writer_enqueued := false,
      np_key := none, buffer_freed := false }

/-- Mirrors one iteration of the delivery trigger's loop (lines 824-859):
when the least undelivered locally-stable sequence number `key` is at most
`min_stable`, the message is passed to `deliver_message` and
`delivered_num[member_index][subgroup]` is set to `key` — unconditionally,
whatever the message's size; otherwise the loop stops (`none`). -/
def deliveryTrigIter (msg : RdmcMsg) (has_file_writer : Bool)
    (shard_members : List ℕ) (shard_senders : List ℤ)
    (key min_stable : ℤ) : Option (ℤ × DeliverEffects) :=
  if key ≤ min_stable then
    some (key, deliver_message msg has_file_writer shard_members shard_senders)
  else none

/-! ## Theorems for C6 -/

/-- C6 counterexample: a null send is *not* a zero-size message — its size is
`sizeof(header) = 17 > 0` (lines 1083-1085, 1132) — and when such a message
reaches delivery, `deliver_message` *does* invoke the global stability
callback (with payload length 0) and *does* enqueue it to the persistence
writer, contradicting the claim that null sends are zero-size messages for
which neither happens. -/
theorem C6_counterexample :
    computeMsgSize c3State 0 true = 17 ∧ (17 : ℕ) ≠ 0 ∧
    (deliver_message ⟨7, 4, 17, false⟩ true [7] [1]).stability_calls = [(7, 4, 0)] ∧
    (deliver_message ⟨7, 4, 17, false⟩ true [7] [1]).writer_enqueued = true := by
  decide

/-- C6 (amended): every *zero-size* message reaching delivery — i.e. the
placeholders inserted for pause-sending turns — occupies a sequence number and
advances `delivered_num` to it when delivered, while `deliver_message` invokes
neither the global stability callback nor the RPC callback for it and does not
enqueue it to the persistence writer; a null send, by contrast, is a
header-only message of positive size, which does reach the callback (with a
zero-length payload) and the writer. -/
theorem C6_zero_size_delivery (msg : RdmcMsg) (hw : Bool)
    (sm : List ℕ) (ss : List ℤ) (key ms : ℤ)
    (h0 : msg.size = 0) (hk : key ≤ ms) :
    deliveryTrigIter msg hw sm ss key ms =
      some (key, ⟨[], [], false, none, false⟩) ∧
    (∀ (j : ℕ) (s : MGState j) (p : ℕ),
      computeMsgSize s p true = headerSize ∧ 0 < headerSize) := by
  constructor
  · unfold deliveryTrigIter deliver_message
    rw [if_pos hk, h0]
    simp
  · intro j s p
    exact ⟨by simp [computeMsgSize], by decide⟩

/-- Witness for C6 at a concrete pause-turn placeholder `{node 5, index 2,
size 0}` delivered at sequence number 11 with `min_stable = 20`. -/
theorem C6_zero_size_delivery_witness :
    deliveryTrigIter ⟨5, 2, 0, false⟩ true [5] [1] 11 20 =
      some (11, ⟨[], [], false, none, false⟩) ∧
    computeMsgSize c3State 3 true = headerSize ∧ 0 < headerSize := by
  have h := C6_zero_size_delivery ⟨5, 2, 0, false⟩ true [5] [1] 11 20 rfl
    (by decide)
  exact ⟨h.1, h.2 1 c3State 3⟩

/-! ## Ragged-edge forced delivery (C5)

`MulticastGroup::deliver_messages_upto` (lines 612-642): starting from the
current `delivered_num`, compute `max_seq_num` as the maximum over senders of
`max_indices_for_senders[sender] * num_shard_senders + sender`, then walk all
sequence numbers up to it, delivering (and erasing) any message found in
`locally_stable_rdmc_messages`, else in `locally_stable_sst_messages`.  The
two `std::map`s are modelled by their find/erase semantics as lookup
functions `ℤ → Option RdmcMsg`. -/

/-- `map.erase(it)` for the entry at `key`. -/
def eraseKey (f : ℤ → Option RdmcMsg) (key : ℤ) : ℤ → Option RdmcMsg :=
  fun x => if x = key then none else f x

/-- Mirrors lines 618-623: `max_seq_num` starts at `delivered_num` and is
maxed with `max_indices_for_senders[sender] * num_shard_senders + sender` for
each sender. -/
def maxSeqNum (curr : ℤ) (bounds : List ℤ) (n : ℕ) : ℤ :=
  (List.range n).foldl
    (fun acc sender => max acc (bounds.getD sender 0 * n + sender)) curr

/-- Mirrors the loop of lines 625-641, one fuel unit per sequence number
visited: deliver from the bulk map if present, else from the slot map, erasing
delivered entries; returns the delivered `(seq, msg)` list in visit order and
the two residual maps. -/
def deliverUptoLoop : ℕ → ℤ → (ℤ → Option RdmcMsg) → (ℤ → Option RdmcMsg) →
    List (ℤ × RdmcMsg) × (ℤ → Option RdmcMsg) × (ℤ → Option RdmcMsg)
  | 0, _, rdmc, sst => ([], rdmc, sst)
  | fuel + 1, seq, rdmc, sst =>
    match rdmc seq with
    | some m =>
      let r := deliverUptoLoop fuel (seq + 1) (eraseKey rdmc seq) sst
      ((seq, m) :: r.1, r.2)
    | none =>
      match sst seq with
      | some m =>
        let r := deliverUptoLoop fuel (seq + 1) rdmc (eraseKey sst seq)
        ((seq, m) :: r.1, r.2)
      | none => deliverUptoLoop fuel (seq + 1) rdmc sst

/-- Mirrors `deliver_messages_upto`: `curr` is
`sst->delivered_num[member_index][subgroup_num]`, and the loop runs for
`seq_num = curr, ..., max_seq_num`. -/
def deliver_messages_upto (bounds : List ℤ) (n : ℕ) (curr : ℤ)
    (rdmc sst : ℤ → Option RdmcMsg) :
    List (ℤ × RdmcMsg) × (ℤ → Option RdmcMsg) × (ℤ → Option RdmcMsg) :=
  deliverUptoLoop (maxSeqNum curr bounds n - curr + 1).toNat curr rdmc sst

lemma eraseKey_apply_ne (f : ℤ → Option RdmcMsg) (key x : ℤ) (h : x ≠ key) :
    eraseKey f key x = f x := by
  simp [eraseKey, h]

lemma le_foldl_max : ∀ (l : List ℕ) (g : ℕ → ℤ) (acc : ℤ),
    acc ≤ l.foldl (fun a s => max a (g s)) acc
  | [], _, acc => le_refl acc
  | x :: xs, g, acc => le_trans (le_max_left acc (g x)) (le_foldl_max xs g _)

lemma le_maxSeqNum (curr : ℤ) (bounds : List ℤ) (n : ℕ) :
    curr ≤ maxSeqNum curr bounds n :=
  le_foldl_max (List.range n) _ curr

lemma deliverUptoLoop_mem :
    ∀ (fuel : ℕ) (seq : ℤ) (rdmc sst : ℤ → Option RdmcMsg) (k : ℤ) (m : RdmcMsg),
    ((k, m) ∈ (deliverUptoLoop fuel seq rdmc sst).1 ↔
      seq ≤ k ∧ k < seq + fuel ∧
        (rdmc k = some m ∨ (rdmc k = none ∧ sst k = some m)))
  | 0, seq, rdmc, sst, k, m => by
    simp only [deliverUptoLoop, List.not_mem_nil, false_iff, not_and]
    intro h1 h2
    exfalso
    simp only [Nat.cast_zero, add_zero] at h2
    omega
  | fuel + 1, seq, rdmc, sst, k, m => by
    have hfc : (seq : ℤ) + ((fuel : ℕ) + 1 : ℕ) = (seq + 1) + (fuel : ℤ) := by
      push_cast
      ring
    rcases hr : rdmc seq with _ | m0
    · rcases hs : sst seq with _ | m0
      · simp only [deliverUptoLoop, hr, hs]
        rw [deliverUptoLoop_mem fuel (seq + 1) rdmc sst k m, hfc]
        constructor
        · rintro ⟨h1, h2, h3⟩
          exact ⟨by omega, by omega, h3⟩
        · rintro ⟨h1, h2, h3⟩
          refine ⟨?_, by omega, h3⟩
          rcases eq_or_lt_of_le h1 with heq | hlt
          · exfalso
            rcases h3 with h | ⟨-, h⟩
            · rw [← heq, hr] at h
              simp at h
            · rw [← heq, hs] at h
              simp at h
          · omega
      · simp only [deliverUptoLoop, hr, hs, List.mem_cons, Prod.mk.injEq]
        rw [deliverUptoLoop_mem fuel (seq + 1) rdmc (eraseKey sst seq) k m, hfc]
        constructor
        · rintro (⟨hk, hm⟩ | ⟨h1, h2, h3⟩)
          · subst hk
            subst hm
            exact ⟨le_refl _, by omega, Or.inr ⟨hr, hs⟩⟩
          · have hne : k ≠ seq := by omega
            rw [eraseKey_apply_ne sst seq k hne] at h3
            exact ⟨by omega, by omega, h3⟩
        · rintro ⟨h1, h2, h3⟩
          rcases eq_or_lt_of_le h1 with heq | hlt
          · left
            rcases h3 with h | ⟨-, h⟩
            · rw [← heq, hr] at h
              simp at h
            · rw [← heq, hs] at h
              exact ⟨heq.symm, (Option.some_injective _ h).symm⟩
          · right
            have hne : k ≠ seq := by omega
            rw [← eraseKey_apply_ne sst seq k hne] at h3
            exact ⟨by omega, by omega, h3⟩
    · simp only [deliverUptoLoop, hr, List.mem_cons, Prod.mk.injEq]
      rw [deliverUptoLoop_mem fuel (seq + 1) (eraseKey rdmc seq) sst k m, hfc]
      constructor
      · rintro (⟨hk, hm⟩ | ⟨h1, h2, h3⟩)
        · subst hk
          subst hm
          exact ⟨le_refl _, by omega, Or.inl hr⟩
        · have hne : k ≠ seq := by omega
          rw [eraseKey_apply_ne rdmc seq k hne] at h3
          exact ⟨by omega, by omega, h3⟩
      · rintro ⟨h1, h2, h3⟩
        rcases eq_or_lt_of_le h1 with heq | hlt
        · left
          rcases h3 with h | ⟨h, -⟩
          · rw [← heq, hr] at h
            exact ⟨heq.symm, (Option.some_injective _ h).symm⟩
          · rw [← heq, hr] at h
            simp at h
        · right
          have hne : k ≠ seq := by omega
          rw [← eraseKey_apply_ne rdmc seq k hne] at h3
          exact ⟨by omega, by omega, h3⟩

lemma deliverUptoLoop_pairwise :
    ∀ (fuel : ℕ) (seq : ℤ) (rdmc sst : ℤ → Option RdmcMsg),
    ((deliverUptoLoop fuel seq rdmc sst).1).Pairwise (fun a b => a.1 < b.1)
  | 0, _, _, _ => List.Pairwise.nil
  | fuel + 1, seq, rdmc, sst => by
    have key : ∀ (rdmc' sst' : ℤ → Option RdmcMsg) (b : ℤ × RdmcMsg),
        b ∈ (deliverUptoLoop fuel (seq + 1) rdmc' sst').1 → seq < b.1 := by
      intro rdmc' sst' b hb
      have := (deliverUptoLoop_mem fuel (seq + 1) rdmc' sst' b.1 b.2).mp
        (by simpa using hb)
      omega
    rcases hr : rdmc seq with _ | m0
    · rcases hs : sst seq with _ | m0
      · simp only [deliverUptoLoop, hr, hs]
        exact deliverUptoLoop_pairwise fuel (seq + 1) rdmc sst
      · simp only [deliverUptoLoop, hr, hs]
        exact List.Pairwise.cons (key _ _) (deliverUptoLoop_pairwise fuel (seq + 1) rdmc _)
    · simp only [deliverUptoLoop, hr]
      exact List.Pairwise.cons (key _ _) (deliverUptoLoop_pairwise fuel (seq + 1) _ sst)

/-! ## Theorems for C5 -/

/-- The bulk locally-stable queue for the C5 counterexample: a single message
from the sender of rank 1 (of 2) with per-sender index 0, stored at its
sequence number `0 * 2 + 1 = 1`. -/
def c5Rdmc : ℤ → Option RdmcMsg :=
  fun k => if k = 1 then some ⟨31, 0, 9, false⟩ else none

/-- C5 counterexample: with two shard senders and per-sender bounds
`[1, -1]`, `deliver_messages_upto` delivers the message of sender rank 1 with
index 0 (sequence number `0 * 2 + 1 = 1`), even though that sender's bound is
`-1 < 0` — the code cuts at the *maximum* over senders of
`bound_s * num_shard_senders + s` (here `1 * 2 + 0 = 2`), not per sender, so
the claim "no message from a sender s with index greater than
max_indices_for_senders[s] is delivered" is false. -/
theorem C5_counterexample :
    [(1 : ℤ), -1].length = 2 ∧
    ((1 : ℤ), (⟨31, 0, 9, false⟩ : RdmcMsg)) ∈
      (deliver_messages_upto [1, -1] 2 (-1) c5Rdmc (fun _ => none)).1 ∧
    (1 : ℤ) = 0 * 2 + 1 ∧
    [(1 : ℤ), -1].getD 1 0 < (RdmcMsg.index ⟨31, 0, 9, false⟩) := by
  decide

/-- C5 (amended): a call to `deliver_messages_upto(max_indices_for_senders,
subgroup, num_shard_senders)` delivers, in strictly increasing
sequence-number order and regardless of the current `stable_num`, exactly the
not-yet-delivered locally-stable messages (bulk map preferred over the slot
map at the same key) whose sequence number lies between the current
`delivered_num` and the *maximum* over senders `s` of
`max_indices_for_senders[s] * num_shard_senders + s`; a message whose own
sender's bound is exceeded can still be delivered when its sequence number is
below that maximum. -/
theorem C5_deliver_messages_upto (bounds : List ℤ) (n : ℕ) (curr : ℤ)
    (rdmc sst : ℤ → Option RdmcMsg) (k : ℤ) (m : RdmcMsg) :
    (((k, m) ∈ (deliver_messages_upto bounds n curr rdmc sst).1) ↔
      (curr ≤ k ∧ k ≤ maxSeqNum curr bounds n ∧
        (rdmc k = some m ∨ (rdmc k = none ∧ sst k = some m)))) ∧
    ((deliver_messages_upto bounds n curr rdmc sst).1).Pairwise
      (fun a b => a.1 < b.1) := by
  constructor
  · unfold deliver_messages_upto
    rw [deliverUptoLoop_mem]
    have hms := le_maxSeqNum curr bounds n
    have htn : ((maxSeqNum curr bounds n - curr + 1).toNat : ℤ)
        = maxSeqNum curr bounds n - curr + 1 := Int.toNat_of_nonneg (by omega)
    rw [htn]
    constructor
    · rintro ⟨h1, h2, h3⟩
      exact ⟨h1, by omega, h3⟩
    · rintro ⟨h1, h2, h3⟩
      exact ⟨h1, by omega, h3⟩
  · exact deliverUptoLoop_pairwise _ curr rdmc sst

/-! ## Sequence-number recomputation on receive (C2)

Both receive paths end with the same bookkeeping: after advancing
`num_received[offset + sender_rank]`, compute `std::min_element` over the
subgroup's `num_received` segment, set `new_seq_num = (*min_ptr + 1) *
num_shard_senders + min_index - 1`, overwrite `seq_num` only when strictly
greater, and push the columns.  The RDMC receive handler does this under a
`new_num_received > num_received` guard (lines 418-442); the slot-path
`receiver_trig` does the recomputation unconditionally after draining slots
(lines 758-772). -/

/-- Mirrors the `std::min_element` scan: `cur`/`curIdx` are the best value and
its index so far, `i` the index of the list head; `<` keeps the *first*
occurrence of the minimum, exactly as `std::min_element` does. -/
def minElementAux : List ℤ → ℤ → ℕ → ℕ → ℤ × ℕ
  | [], cur, curIdx, _ => (cur, curIdx)
  | x :: xs, cur, curIdx, i =>
    if x < cur then minElementAux xs x i (i + 1)
    else minElementAux xs cur curIdx (i + 1)

/-- `std::min_element` over a nonempty list together with
`std::distance(begin, min_ptr)`: the minimum value and the index of its first
occurrence. -/
def minElement : List ℤ → ℤ × ℕ
  | [] => (0, 0)
  | x :: xs => minElementAux xs x 0 1

/-- `v` is the minimum of `l` and `idx` the index of its first occurrence. -/
def IsFirstMin (l : List ℤ) (v : ℤ) (idx : ℕ) : Prop :=
  idx < l.length ∧ l.getD idx 0 = v ∧ (∀ j, j < idx → v < l.getD j 0) ∧
    ∀ y ∈ l, v ≤ y

/-- Result of the receive-handler tail: the `num_received` segment, the local
`seq_num`, and which SST columns were pushed to the shard. -/
structure ReceiveTailResult : Type where
  num_received : List ℤ
  seq_num : ℤ
  put_num_received : Bool
  put_seq_num : Bool
deriving DecidableEq, Repr

/-- Mirrors lines 418-442 of the RDMC receive handler: `row` is the
`num_received[member_index][offset .. offset + num_shard_senders)` segment
(so `row.length = num_shard_senders`), `senderRank` the message sender's rank
among the shard's senders. -/
def rdmcReceiveTail (row : List ℤ) (senderRank : ℕ)
    (newNumReceived seqNum : ℤ) : ReceiveTailResult :=
  if newNumReceived > row.getD senderRank (-1) then
    let row' := row.set senderRank newNumReceived
    let mv := (minElement row').1
    let mi := (minElement row').2
    let newSeqNum := (mv + 1) * (row'.length : ℤ) + (mi : ℤ) - 1
    if newSeqNum > seqNum then
      { num_received := row', seq_num := newSeqNum,
        put_num_received := true, put_seq_num := true }
    else
      { num_received := row', seq_num := seqNum,
        put_num_received := true, put_seq_num := false }
  else
    { num_received := row, seq_num := seqNum,
      put_num_received := false, put_seq_num := false }

/-- Mirrors lines 760-770 of `receiver_trig` (the slot path): the same
recomputation over the already-updated `num_received` segment, with the
strictly-greater update guard; the `num_received` column itself is pushed
unconditionally afterwards (lines 771-772). -/
def receiverTrigTail (row : List ℤ) (seqNum : ℤ) : ℤ × Bool :=
  let mv := (minElement row).1
  let mi := (minElement row).2
  let newSeqNum := (mv + 1) * (row.length : ℤ) + (mi : ℤ) - 1
  if newSeqNum > seqNum then (newSeqNum, true) else (seqNum, false)

lemma minElementAux_spec :
    ∀ (xs : List ℤ) (cur : ℤ) (curIdx i : ℕ),
    ((minElementAux xs cur curIdx i).1 = cur ∧
      (minElementAux xs cur curIdx i).2 = curIdx ∧ ∀ y ∈ xs, cur ≤ y) ∨
    (∃ j, j < xs.length ∧ (minElementAux xs cur curIdx i).2 = i + j ∧
      xs.getD j 0 = (minElementAux xs cur curIdx i).1 ∧
      (minElementAux xs cur curIdx i).1 < cur ∧
      (∀ j', j' < j → (minElementAux xs cur curIdx i).1 < xs.getD j' 0) ∧
      ∀ y ∈ xs, (minElementAux xs cur curIdx i).1 ≤ y)
  | [], cur, curIdx, i => by
    left
    exact ⟨rfl, rfl, by simp⟩
  | x :: xs, cur, curIdx, i => by
    by_cases hx : x < cur
    · simp only [minElementAux, if_pos hx]
      rcases minElementAux_spec xs x i (i + 1) with ⟨h1, h2, h3⟩ |
        ⟨j, hj1, hj2, hj3, hj4, hj5, hj6⟩
      · right
        refine ⟨0, by simp, by omega, by simpa using h1.symm, ?_, ?_, ?_⟩
        · rw [h1]
          exact hx
        · intro j' hj'
          omega
        · intro y hy
          rw [h1]
          rcases List.mem_cons.mp hy with h | h
          · exact le_of_eq h.symm
          · exact h3 y h
      · right
        refine ⟨j + 1, by simpa using hj1, by omega, by simpa using hj3, ?_, ?_, ?_⟩
        · exact lt_trans hj4 hx
        · intro j' hj'
          cases j' with
          | zero => simpa using hj4
          | succ j'' => simpa using hj5 j'' (by omega)
        · intro y hy
          rcases List.mem_cons.mp hy with h | h
          · rw [h]
            exact le_of_lt hj4
          · exact hj6 y h
    · simp only [minElementAux, if_neg hx]
      rcases minElementAux_spec xs cur curIdx (i + 1) with ⟨h1, h2, h3⟩ |
        ⟨j, hj1, hj2, hj3, hj4, hj5, hj6⟩
      · left
        refine ⟨h1, h2, ?_⟩
        intro y hy
        rcases List.mem_cons.mp hy with h | h
        · rw [h]
          exact le_of_not_lt hx
        · exact h3 y h
      · right
        refine ⟨j + 1, by simpa using hj1, by omega, by simpa using hj3, hj4, ?_, ?_⟩
        · intro j' hj'
          cases j' with
          | zero => simpa using lt_of_lt_of_le hj4 (le_of_not_lt hx)
          | succ j'' => simpa using hj5 j'' (by omega)
        · intro y hy
          rcases List.mem_cons.mp hy with h | h
          · rw [h]
            exact le_trans (le_of_lt hj4) (le_of_not_lt hx)
          · exact hj6 y h

lemma minElement_isFirstMin (l : List ℤ) (hl : l ≠ []) :
    IsFirstMin l (minElement l).1 (minElement l).2 := by
  match l with
  | [] => exact absurd rfl hl
  | x :: xs =>
    simp only [minElement]
    rcases minElementAux_spec xs x 0 1 with ⟨h1, h2, h3⟩ |
      ⟨j, hj1, hj2, hj3, hj4, hj5, hj6⟩
    · refine ⟨by rw [h2]; simp, by simp [h2, h1], ?_, ?_⟩
      · intro j hj
        rw [h2] at hj
        omega
      · intro y hy
        rw [h1]
        rcases List.mem_cons.mp hy with h | h
        · exact le_of_eq h.symm
        · exact h3 y h
    · refine ⟨?_, ?_, ?_, ?_⟩
      · rw [hj2]
        simp
        omega
      · rw [hj2, show 1 + j = j + 1 by omega]
        simpa using hj3
      · intro j' hj'
        rw [hj2] at hj'
        cases j' with
        | zero => simpa using hj4
        | succ j'' => simpa using hj5 j'' (by omega)
      · intro y hy
        rcases List.mem_cons.mp hy with h | h
        · rw [h]
          exact le_of_lt hj4
        · exact hj6 y h

/-! ## Theorems for C2 -/

/-- C2: when a receive handler advances `num_received` for sender `senderRank`
(guard `newNumReceived > num_received[...]`), the subgroup's `seq_num`
candidate is recomputed as `(min over the shard's senders of num_received + 1)
× num_shard_senders + argmin − 1` — where argmin is the index of the *first*
minimum, as `std::min_element` returns — the local SST field is overwritten
only when the candidate is strictly greater (so the new value is the max of
the two), and the `num_received` column is pushed to the shard (the `seq_num`
column exactly when it changed).  The slot path's `receiver_trig` performs the
identical recomputation on the updated segment. -/
theorem C2_seq_num_recomputation (row : List ℤ) (r : ℕ) (newNR seqNum : ℤ)
    (hr : r < row.length) (hadv : row.getD r (-1) < newNR) :
    ∃ v idx, IsFirstMin (row.set r newNR) v idx ∧
      (rdmcReceiveTail row r newNR seqNum).num_received = row.set r newNR ∧
      (rdmcReceiveTail row r newNR seqNum).seq_num
        = max seqNum ((v + 1) * (row.length : ℤ) + (idx : ℤ) - 1) ∧
      ((rdmcReceiveTail row r newNR seqNum).put_seq_num = true ↔
        seqNum < (v + 1) * (row.length : ℤ) + (idx : ℤ) - 1) ∧
      (rdmcReceiveTail row r newNR seqNum).put_num_received = true ∧
      receiverTrigTail (row.set r newNR) seqNum
        = ((rdmcReceiveTail row r newNR seqNum).seq_num,
           (rdmcReceiveTail row r newNR seqNum).put_seq_num) := by
  have hne : row.set r newNR ≠ [] := by
    apply List.ne_nil_of_length_pos
    rw [List.length_set]
    omega
  refine ⟨(minElement (row.set r newNR)).1, (minElement (row.set r newNR)).2,
    minElement_isFirstMin _ hne, ?_, ?_, ?_, ?_, ?_⟩ <;>
    unfold rdmcReceiveTail <;>
    rw [if_pos hadv] <;>
    simp only [List.length_set]
  · split <;> rfl
  · split
    · next h =>
      rw [max_eq_right (le_of_lt h)]
    · next h =>
      rw [max_eq_left (le_of_not_lt h)]
  · split
    · next h =>
      simp [h]
    · next h =>
      simp [le_of_not_lt h, not_lt]
  · split <;> rfl
  · unfold receiverTrigTail
    simp only [List.length_set]
    split <;> rfl

/-- Witness for C2 on the concrete segment `[3, -1, 2]` with sender 1
advancing to 0: the new minimum 0 first occurs at index 1, the candidate is
`(0 + 1) * 3 + 1 - 1 = 3 > 1`, so `seq_num` becomes 3 and both columns are
pushed. -/
theorem C2_seq_num_recomputation_witness :
    ((1 : ℕ) < ([3, -1, 2] : List ℤ).length ∧
      ([3, -1, 2] : List ℤ).getD 1 (-1) < (0 : ℤ)) ∧
    ∃ v idx, IsFirstMin (([3, -1, 2] : List ℤ).set 1 0) v idx ∧
      (rdmcReceiveTail [3, -1, 2] 1 0 1).num_received
        = ([3, -1, 2] : List ℤ).set 1 0 ∧
      (rdmcReceiveTail [3, -1, 2] 1 0 1).seq_num
        = max 1 ((v + 1) * (([3, -1, 2] : List ℤ).length : ℤ) + (idx : ℤ) - 1) ∧
      ((rdmcReceiveTail [3, -1, 2] 1 0 1).put_seq_num = true ↔
        (1 : ℤ) < (v + 1) * (([3, -1, 2] : List ℤ).length : ℤ) + (idx : ℤ) - 1) ∧
      (rdmcReceiveTail [3, -1, 2] 1 0 1).put_num_received = true ∧
      receiverTrigTail (([3, -1, 2] : List ℤ).set 1 0) 1
        = ((rdmcReceiveTail [3, -1, 2] 1 0 1).seq_num,
           (rdmcReceiveTail [3, -1, 2] 1 0 1).put_seq_num) :=
  ⟨⟨by decide, by decide⟩,
    C2_seq_num_recomputation [3, -1, 2] 1 0 1 (by decide) (by decide)⟩

/-! ## The counter pipeline as a transition system (C1)

One subgroup whose shard has `m` members and `n` senders.  Each member's row
carries the SST counters written by `initialize_sst_row` (lines 513-529)
together with the member's merged locally-stable queue and its
`non_persistent_messages` key set.  The quiescent moments of the claim are the
states of this system: each transition is one receive-handler completion, one
iteration of a predicate trigger, or one file-writer callback, exactly as in
`create_rdmc_sst_groups` / `register_predicates` /
`make_file_written_callback`.  The model collapses each member's replicated
copies of the SST into one shared state (remote reads see current values;
staleness only lowers the minima the triggers compute and is immaterial to
the per-row inequality chain, whose right-hand sides only grow). -/

/-- One member's slice of the modelled state: its SST row for one subgroup
(`num_received` restricted to the subgroup's senders) plus its local message
bookkeeping. -/
structure MemberRow (n : ℕ) : Type where
  num_received : Fin n → ℤ
  seq_num : ℤ
  stable_num : ℤ
  delivered_num : ℤ
  persisted_num : ℤ
  /-- Keys of `locally_stable_rdmc_messages ∪ locally_stable_sst_messages`. -/
  queue : Finset ℤ
  /-- Keys of `non_persistent_messages` (delivered, not yet durable). -/
  np : Finset ℤ

/-- The whole shard: one row per member. -/
structure ShardState (m n : ℕ) : Type where
  rows : Fin m → MemberRow n

def univFinNonempty (n : ℕ) [NeZero n] :
    (Finset.univ : Finset (Fin n)).Nonempty :=
  ⟨⟨0, Nat.pos_of_ne_zero (NeZero.ne n)⟩, Finset.mem_univ _⟩

/-- Minimum of an SST column segment (what `std::min_element` dereferences). -/
def minVal {n : ℕ} [NeZero n] (f : Fin n → ℤ) : ℤ :=
  Finset.inf' Finset.univ (univFinNonempty n) f

def minIdxSet {n : ℕ} [NeZero n] (f : Fin n → ℤ) : Finset (Fin n) :=
  Finset.univ.filter (fun i => f i = minVal f)

lemma minIdxSet_nonempty {n : ℕ} [NeZero n] (f : Fin n → ℤ) :
    (minIdxSet f).Nonempty := by
  obtain ⟨i, -, hi⟩ := Finset.exists_mem_eq_inf' (univFinNonempty n) f
  exact ⟨i, by simp [minIdxSet, minVal, hi.symm]⟩

/-- First index attaining the minimum (what `std::distance(begin, min_ptr)`
yields, `std::min_element` returning the first minimum). -/
def minIdx {n : ℕ} [NeZero n] (f : Fin n → ℤ) : Fin n :=
  (minIdxSet f).min' (minIdxSet_nonempty f)

/-- The `seq_num` candidate `(*min_ptr + 1) * num_shard_senders + min_index - 1`
of lines 424 and 764, as a function of the `num_received` segment. -/
def seqBound {n : ℕ} [NeZero n] (f : Fin n → ℤ) : ℤ :=
  (minVal f + 1) * (n : ℤ) + ((minIdx f).val : ℤ) - 1

lemma minVal_le {n : ℕ} [NeZero n] (f : Fin n → ℤ) (r : Fin n) :
    minVal f ≤ f r :=
  Finset.inf'_le f (Finset.mem_univ r)

lemma minVal_eq_minIdx {n : ℕ} [NeZero n] (f : Fin n → ℤ) :
    f (minIdx f) = minVal f := by
  have h := (minIdxSet f).min'_mem (minIdxSet_nonempty f)
  simpa [minIdxSet] using h

lemma minIdx_le {n : ℕ} [NeZero n] (f : Fin n → ℤ) (r : Fin n)
    (h : f r = minVal f) : minIdx f ≤ r :=
  Finset.min'_le _ r (by simp [minIdxSet, h])

/-- A freshly received message from sender `r` lands at a sequence number
strictly above the current `seq_num` candidate: its per-sender index is at
least `num_received[r] + 1`. -/
lemma seqBound_lt_newKey {n : ℕ} [NeZero n] (f : Fin n → ℤ) (r : Fin n)
    (b : ℤ) (hb : f r + 1 ≤ b) :
    seqBound f < b * (n : ℤ) + (r.val : ℤ) := by
  have hminle : minVal f ≤ f r := minVal_le f r
  have hidx_lt : ((minIdx f).val : ℤ) < (n : ℤ) := by
    exact_mod_cast (minIdx f).isLt
  have hr_nonneg : (0 : ℤ) ≤ (r.val : ℤ) := Int.natCast_nonneg _
  have hn_pos : (0 : ℤ) < (n : ℤ) := by
    exact_mod_cast Nat.pos_of_ne_zero (NeZero.ne n)
  unfold seqBound
  rcases eq_or_lt_of_le hminle with heq | hlt
  · have hle : minIdx f ≤ r := minIdx_le f r heq.symm
    have hle' : ((minIdx f).val : ℤ) ≤ (r.val : ℤ) := by exact_mod_cast hle
    have hmul : (minVal f + 1) * (n : ℤ) ≤ b * (n : ℤ) :=
      mul_le_mul_of_nonneg_right (by omega) (le_of_lt hn_pos)
    linarith
  · have hb2 : minVal f + 2 ≤ b := by omega
    have hmul : (minVal f + 2) * (n : ℤ) ≤ b * (n : ℤ) :=
      mul_le_mul_of_nonneg_right hb2 (le_of_lt hn_pos)
    nlinarith

/-- The `seq_num` candidate is monotone in the `num_received` segment: the
longest gap-free received prefix only grows when counts grow. -/
lemma seqBound_mono {n : ℕ} [NeZero n] (f g : Fin n → ℤ)
    (hfg : ∀ i, f i ≤ g i) : seqBound f ≤ seqBound g := by
  have hv : minVal f ≤ minVal g := by
    obtain ⟨i, -, hi⟩ := Finset.exists_mem_eq_inf' (univFinNonempty n) g
    calc minVal f ≤ f i := minVal_le f i
    _ ≤ g i := hfg i
    _ = minVal g := hi.symm
  have hn_pos : (0 : ℤ) < (n : ℤ) := by
    exact_mod_cast Nat.pos_of_ne_zero (NeZero.ne n)
  rcases eq_or_lt_of_le hv with heq | hlt
  · have hfi : f (minIdx g) = minVal f := by
      have h1 : f (minIdx g) ≤ g (minIdx g) := hfg _
      have h2 : g (minIdx g) = minVal g := minVal_eq_minIdx g
      have h3 : minVal f ≤ f (minIdx g) := minVal_le f _
      omega
    have hle : minIdx f ≤ minIdx g := minIdx_le f _ hfi
    have hle' : ((minIdx f).val : ℤ) ≤ ((minIdx g).val : ℤ) := by
      exact_mod_cast hle
    unfold seqBound
    rw [heq]
    linarith
  · have hif : ((minIdx f).val : ℤ) < (n : ℤ) := by
      exact_mod_cast (minIdx f).isLt
    have hig : (0 : ℤ) ≤ ((minIdx g).val : ℤ) := Int.natCast_nonneg _
    have hmul : (minVal f + 2) * (n : ℤ) ≤ (minVal g + 1) * (n : ℤ) :=
      mul_le_mul_of_nonneg_right (by omega) (le_of_lt hn_pos)
    unfold seqBound
    nlinarith

def updateRow {m n : ℕ} (s : ShardState m n) (i : Fin m)
    (f : MemberRow n → MemberRow n) : ShardState m n :=
  ⟨Function.update s.rows i (f (s.rows i))⟩

/-- `min over shard members of seq_num[:][subgroup]` — the stability trigger's
scan, lines 784-792. -/
def minSeq {m n : ℕ} [NeZero m] (s : ShardState m n) : ℤ :=
  Finset.inf' Finset.univ (univFinNonempty m) (fun j => (s.rows j).seq_num)

/-- `min over shard members of stable_num[:][subgroup]` — the delivery
trigger's scan, lines 814-821. -/
def minStable {m n : ℕ} [NeZero m] (s : ShardState m n) : ℤ :=
  Finset.inf' Finset.univ (univFinNonempty m) (fun j => (s.rows j).stable_num)

/-- Effect of one receive-handler completion on the receiving member's row
(both transport paths, lines 352-442 and 681-737): the message of sender `r`
with header index `b` and `k = pause_sending_turns` inserts keys
`(b + t) * num_shard_senders + r` for `t = 0, ..., k` into the locally-stable
queue; `num_received[r]` becomes `v` (`resolve_num_received`: `v = b + k` for
an in-order arrival, unchanged on a hole, never below the old value); when the
path recomputes `seq_num` it takes the candidate `seqBound` but overwrites
only if strictly greater, i.e. takes the max. -/
def receiveRow {n : ℕ} [NeZero n] (row : MemberRow n) (r : Fin n) (b : ℤ)
    (k : ℕ) (v : ℤ) (recompute : Bool) : MemberRow n :=
  let nr' := Function.update row.num_received r v
  { row with
    num_received := nr'
    seq_num := if recompute then max row.seq_num (seqBound nr') else row.seq_num
    queue := row.queue ∪
      (Finset.range (k + 1)).image (fun t : ℕ => (b + (t : ℤ)) * (n : ℤ) + (r.val : ℤ)) }

/-- Which trigger a transition is (at which member). -/
inductive StepLabel (m n : ℕ) : Type
  | receive (i : Fin m) (r : Fin n)
  | rawDrain (i : Fin m)
  | stability (i : Fin m)
  | deliver (i : Fin m)
  | persistMsg (i : Fin m)

/-- One transition of the pipeline.  `receive` is a receive-handler completion
(guarded by the header index being past `num_received[r]`, as both the RDMC
destination callback at line 486 and the `receiver_trig` slot guard at line
750 enforce); `rawDrain` is the RAW-mode immediate stability upcall, which
erases the least queued message without touching the counters (lines
386-417/704-735); `stability` and `deliver` are single iterations of the
stability and delivery triggers (lines 781-804, 810-867); `persistMsg` is one
file-writer callback (lines 303-329), which erases a present
`non_persistent_messages` key and assigns `persisted_num` to exactly that
key. -/
inductive Step {m n : ℕ} [NeZero m] [NeZero n] :
    ShardState m n → StepLabel m n → ShardState m n → Prop
  | receive (s : ShardState m n) (i : Fin m) (r : Fin n) (b : ℤ) (k : ℕ)
      (v : ℤ) (recompute : Bool)
      (hb : (s.rows i).num_received r + 1 ≤ b)
      (hv1 : (s.rows i).num_received r ≤ v) (hv2 : v ≤ b + k) :
      Step s (.receive i r) (updateRow s i (fun row => receiveRow row r b k v recompute))
  | rawDrain (s : ShardState m n) (i : Fin m) (key : ℤ)
      (hk : key ∈ (s.rows i).queue)
      (hmin : ∀ x ∈ (s.rows i).queue, key ≤ x) :
      Step s (.rawDrain i)
        (updateRow s i (fun row => { row with queue := row.queue.erase key }))
  | stability (s : ShardState m n) (i : Fin m) :
      Step s (.stability i) (updateRow s i (fun row =>
        { row with stable_num := max row.stable_num (minSeq s) }))
  | deliver (s : ShardState m n) (i : Fin m) (key : ℤ) (persistIt : Bool)
      (hk : key ∈ (s.rows i).queue)
      (hmin : ∀ x ∈ (s.rows i).queue, key ≤ x)
      (hstable : key ≤ minStable s) :
      Step s (.deliver i) (updateRow s i (fun row =>
        { row with
          queue := row.queue.erase key
          np := if persistIt then insert key row.np else row.np
          delivered_num := key }))
  | persistMsg (s : ShardState m n) (i : Fin m) (key : ℤ)
      (hk : key ∈ (s.rows i).np) :
      Step s (.persistMsg i) (updateRow s i (fun row =>
        { row with np := row.np.erase key, persisted_num := key }))

/-- The row `initialize_sst_row` writes (lines 513-529): every counter −1,
no queued or unpersisted messages. -/
def initRow (n : ℕ) : MemberRow n :=
  { num_received := fun _ => -1, seq_num := -1, stable_num := -1,
    delivered_num := -1, persisted_num := -1, queue := ∅, np := ∅ }

def initShardState (m n : ℕ) : ShardState m n := ⟨fun _ => initRow n⟩

/-- States reachable from the freshly initialized SST by trigger firings —
the quiescent moments of the claim. -/
def Reachable {m n : ℕ} [NeZero m] [NeZero n] (s : ShardState m n) : Prop :=
  Relation.ReflTransGen (fun a b => ∃ l, Step a l b) (initShardState m n) s

/-- The inductive invariant: the counter chain, `seq_num` bounded by the
candidate its `num_received` segment justifies, queued keys strictly above
`delivered_num`, and unpersisted keys at most `delivered_num`. -/
def RowInv {n : ℕ} [NeZero n] (row : MemberRow n) : Prop :=
  row.persisted_num ≤ row.delivered_num ∧
  row.delivered_num ≤ row.stable_num ∧
  row.stable_num ≤ row.seq_num ∧
  row.seq_num ≤ seqBound row.num_received ∧
  (∀ x ∈ row.queue, row.delivered_num < x) ∧
  (∀ x ∈ row.np, x ≤ row.delivered_num)

def Inv {m n : ℕ} [NeZero m] [NeZero n] (s : ShardState m n) : Prop :=
  ∀ j, RowInv (s.rows j)

lemma updateRow_self {m n : ℕ} (s : ShardState m n) (i : Fin m)
    (f : MemberRow n → MemberRow n) : (updateRow s i f).rows i = f (s.rows i) := by
  simp [updateRow]

lemma updateRow_other {m n : ℕ} (s : ShardState m n) {i j : Fin m}
    (f : MemberRow n → MemberRow n) (h : j ≠ i) :
    (updateRow s i f).rows j = s.rows j := by
  simp [updateRow, Function.update_noteq h]

lemma initRow_inv {n : ℕ} [NeZero n] : RowInv (initRow n) := by
  refine ⟨le_refl _, le_refl _, le_refl _, ?_, by simp [initRow], by simp [initRow]⟩
  show (-1 : ℤ) ≤ seqBound (initRow n).num_received
  have hc : (initRow n).num_received = fun _ => (-1 : ℤ) := rfl
  rw [hc]
  unfold seqBound
  have h1 : minVal (fun _ : Fin n => (-1 : ℤ)) = -1 := Finset.inf'_const _ _
  have h2 : (0 : ℤ) ≤ ((minIdx (fun _ : Fin n => (-1 : ℤ))).val : ℤ) :=
    Int.natCast_nonneg _
  rw [h1]
  linarith

lemma step_preserves_inv {m n : ℕ} [NeZero m] [NeZero n]
    {s s' : ShardState m n} {l : StepLabel m n}
    (hinv : Inv s) (hstep : Step s l s') : Inv s' := by
  cases hstep with
  | receive i r b k v recompute hb hv1 hv2 =>
    intro j
    by_cases hj : j = i
    · subst hj
      obtain ⟨h1, h2, h3, h4, h5, h6⟩ := hinv j
      rw [updateRow_self]
      have hmono : ∀ x, (s.rows j).num_received x ≤
          Function.update (s.rows j).num_received r v x := by
        intro x
        by_cases hx : x = r
        · subst hx
          rw [Function.update_same]
          exact hv1
        · rw [Function.update_noteq hx]
      have hbd : seqBound (s.rows j).num_received ≤
          seqBound (Function.update (s.rows j).num_received r v) :=
        seqBound_mono _ _ hmono
      have hnewkey : seqBound (s.rows j).num_received < b * (n : ℤ) + (r.val : ℤ) :=
        seqBound_lt_newKey _ r b hb
      refine ⟨h1, h2, ?_, ?_, ?_, h6⟩
      · show (s.rows j).stable_num ≤
          (if recompute then
            max (s.rows j).seq_num (seqBound (Function.update (s.rows j).num_received r v))
          else (s.rows j).seq_num)
        split
        · exact le_trans h3 (le_max_left _ _)
        · exact h3
      · show (if recompute then
            max (s.rows j).seq_num (seqBound (Function.update (s.rows j).num_received r v))
          else (s.rows j).seq_num) ≤
          seqBound (Function.update (s.rows j).num_received r v)
        split
        · exact max_le (le_trans h4 hbd) (le_refl _)
        · exact le_trans h4 hbd
      · intro x hx
        show (s.rows j).delivered_num < x
        have hx' : x ∈ (s.rows j).queue ∪
            (Finset.range (k + 1)).image
              (fun t : ℕ => (b + (t : ℤ)) * (n : ℤ) + (r.val : ℤ)) := hx
        rcases Finset.mem_union.mp hx' with hq | hnew
        · exact h5 x hq
        · obtain ⟨t, -, ht⟩ := Finset.mem_image.mp hnew
          have htn : (0 : ℤ) ≤ (t : ℤ) := Int.natCast_nonneg _
          have hnn : (0 : ℤ) ≤ (n : ℤ) := Int.natCast_nonneg _
          have hbt : b * (n : ℤ) ≤ (b + (t : ℤ)) * (n : ℤ) :=
            mul_le_mul_of_nonneg_right (by linarith) hnn
          have : (s.rows j).delivered_num < b * (n : ℤ) + (r.val : ℤ) := by
            linarith
          rw [← ht] at *
          linarith
    · rw [updateRow_other _ _ hj]
      exact hinv j
  | rawDrain i key hk hmin =>
    intro j
    by_cases hj : j = i
    · subst hj
      obtain ⟨h1, h2, h3, h4, h5, h6⟩ := hinv j
      rw [updateRow_self]
      exact ⟨h1, h2, h3, h4, fun x hx => h5 x (Finset.mem_of_mem_erase hx), h6⟩
    · rw [updateRow_other _ _ hj]
      exact hinv j
  | stability i =>
    intro j
    by_cases hj : j = i
    · subst hj
      obtain ⟨h1, h2, h3, h4, h5, h6⟩ := hinv j
      rw [updateRow_self]
      refine ⟨h1, le_trans h2 (le_max_left _ _), ?_, h4, h5, h6⟩
      exact max_le h3 (Finset.inf'_le _ (Finset.mem_univ j))
    · rw [updateRow_other _ _ hj]
      exact hinv j
  | deliver i key persistIt hk hmin hstable =>
    intro j
    by_cases hj : j = i
    · subst hj
      obtain ⟨h1, h2, h3, h4, h5, h6⟩ := hinv j
      rw [updateRow_self]
      have hdk : (s.rows j).delivered_num < key := h5 key hk
      refine ⟨le_of_lt (lt_of_le_of_lt h1 hdk), ?_, h3, h4, ?_, ?_⟩
      · exact le_trans hstable (Finset.inf'_le _ (Finset.mem_univ j))
      · intro x hx
        have hx' := Finset.mem_of_mem_erase hx
        have hne := Finset.ne_of_mem_erase hx
        exact lt_of_le_of_ne (hmin x hx') (Ne.symm hne)
      · intro x hx
        show x ≤ key
        by_cases hp : persistIt
        · rw [if_pos hp] at hx
          rcases Finset.mem_insert.mp hx with hxe | hxnp
          · exact le_of_eq hxe
          · exact le_of_lt (lt_of_le_of_lt (h6 x hxnp) hdk)
        · rw [if_neg hp] at hx
          exact le_of_lt (lt_of_le_of_lt (h6 x hx) hdk)
    · rw [updateRow_other _ _ hj]
      exact hinv j
  | persistMsg i key hk =>
    intro j
    by_cases hj : j = i
    · subst hj
      obtain ⟨h1, h2, h3, h4, h5, h6⟩ := hinv j
      rw [updateRow_self]
      exact ⟨h6 key hk, h2, h3, h4, h5,
        fun x hx => h6 x (Finset.mem_of_mem_erase hx)⟩
    · rw [updateRow_other _ _ hj]
      exact hinv j

lemma reachable_inv {m n : ℕ} [NeZero m] [NeZero n] (s : ShardState m n)
    (h : Reachable s) : Inv s := by
  induction h with
  | refl => exact fun j => initRow_inv
  | tail _ hstep ih =>
    obtain ⟨l, hl⟩ := hstep
    exact step_preserves_inv ih hl

/-- Attribution of counter changes to triggers: if a step changed a counter of
member `j`'s row, the step was the corresponding trigger at `j` (and the three
monotone counters did not decrease). -/
def FrameAt {m n : ℕ} (l : StepLabel m n) (j : Fin m)
    (old new : MemberRow n) : Prop :=
  (new.seq_num ≠ old.seq_num →
    (∃ r, l = .receive j r) ∧ old.seq_num ≤ new.seq_num) ∧
  (new.stable_num ≠ old.stable_num →
    l = .stability j ∧ old.stable_num ≤ new.stable_num) ∧
  (new.delivered_num ≠ old.delivered_num →
    l = .deliver j ∧ old.delivered_num ≤ new.delivered_num) ∧
  (new.persisted_num ≠ old.persisted_num → l = .persistMsg j)

lemma frameAt_refl {m n : ℕ} (l : StepLabel m n) (j : Fin m)
    (row : MemberRow n) : FrameAt l j row row :=
  ⟨fun hne => absurd rfl hne, fun hne => absurd rfl hne,
    fun hne => absurd rfl hne, fun hne => absurd rfl hne⟩

lemma step_frame {m n : ℕ} [NeZero m] [NeZero n] {s s' : ShardState m n}
    {l : StepLabel m n} (hinv : Inv s) (hstep : Step s l s') :
    ∀ j, FrameAt l j (s.rows j) (s'.rows j) := by
  cases hstep with
  | receive i r b k v recompute hb hv1 hv2 =>
    intro j
    by_cases hj : j = i
    · subst hj
      rw [updateRow_self]
      refine ⟨fun hne => ⟨⟨r, rfl⟩, ?_⟩, fun hne => absurd rfl hne,
        fun hne => absurd rfl hne, fun hne => absurd rfl hne⟩
      show (s.rows j).seq_num ≤
        (if recompute then
          max (s.rows j).seq_num
            (seqBound (Function.update (s.rows j).num_received r v))
        else (s.rows j).seq_num)
      split
      · exact le_max_left _ _
      · exact le_refl _
    · rw [updateRow_other _ _ hj]
      exact frameAt_refl _ _ _
  | rawDrain i key hk hmin =>
    intro j
    by_cases hj : j = i
    · subst hj
      rw [updateRow_self]
      exact ⟨fun hne => absurd rfl hne, fun hne => absurd rfl hne,
        fun hne => absurd rfl hne, fun hne => absurd rfl hne⟩
    · rw [updateRow_other _ _ hj]
      exact frameAt_refl _ _ _
  | stability i =>
    intro j
    by_cases hj : j = i
    · subst hj
      rw [updateRow_self]
      exact ⟨fun hne => absurd rfl hne,
        fun _ => ⟨rfl, le_max_left _ _⟩,
        fun hne => absurd rfl hne, fun hne => absurd rfl hne⟩
    · rw [updateRow_other _ _ hj]
      exact frameAt_refl _ _ _
  | deliver i key persistIt hk hmin hstable =>
    intro j
    by_cases hj : j = i
    · subst hj
      rw [updateRow_self]
      refine ⟨fun hne => absurd rfl hne, fun hne => absurd rfl hne,
        fun _ => ⟨rfl, ?_⟩, fun hne => absurd rfl hne⟩
      exact le_of_lt ((hinv j).2.2.2.2.1 key hk)
    · rw [updateRow_other _ _ hj]
      exact frameAt_refl _ _ _
  | persistMsg i key hk =>
    intro j
    by_cases hj : j = i
    · subst hj
      rw [updateRow_self]
      exact ⟨fun hne => absurd rfl hne, fun hne => absurd rfl hne,
        fun hne => absurd rfl hne, fun _ => rfl⟩
    · rw [updateRow_other _ _ hj]
      exact frameAt_refl _ _ _

/-! ## Theorem for C1 -/

/-- C1: after `initialize_sst_row` all four counters (and `num_received`) are
−1; at every quiescent moment — i.e. in every state reachable by receive
completions, trigger iterations and persistence callbacks — every member's
row satisfies `persisted_num ≤ delivered_num ≤ stable_num ≤ seq_num`; and
each counter is only ever advanced by its own trigger: any step that changes
a member's `seq_num` is a receive at that member (and increases it), any step
changing `stable_num` is the stability trigger (which takes the min of the
shard's `seq_num`), any step changing `delivered_num` is the delivery trigger
(gated by the min of the shard's `stable_num`), and any step changing
`persisted_num` is the file-writer callback. -/
theorem C1_invariant_chain {m n : ℕ} [NeZero m] [NeZero n] :
    (∀ j : Fin m, ((initShardState m n).rows j).seq_num = -1 ∧
      ((initShardState m n).rows j).stable_num = -1 ∧
      ((initShardState m n).rows j).delivered_num = -1 ∧
      ((initShardState m n).rows j).persisted_num = -1 ∧
      ∀ r : Fin n, ((initShardState m n).rows j).num_received r = -1) ∧
    (∀ s : ShardState m n, Reachable s → ∀ j : Fin m,
      (s.rows j).persisted_num ≤ (s.rows j).delivered_num ∧
      (s.rows j).delivered_num ≤ (s.rows j).stable_num ∧
      (s.rows j).stable_num ≤ (s.rows j).seq_num) ∧
    (∀ (s : ShardState m n) (l : StepLabel m n) (s' : ShardState m n),
      Reachable s → Step s l s' →
      ∀ j : Fin m, FrameAt l j (s.rows j) (s'.rows j)) := by
  refine ⟨fun j => ⟨rfl, rfl, rfl, rfl, fun r => rfl⟩, ?_, ?_⟩
  · intro s hs j
    obtain ⟨h1, h2, h3, -, -, -⟩ := reachable_inv s hs j
    exact ⟨h1, h2, h3⟩
  · intro s l s' hs hstep j
    exact step_frame (reachable_inv s hs) hstep j

/-- The state after one stability-trigger firing on the fresh 1×1 shard. -/
def c1StabState : ShardState 1 1 :=
  updateRow (initShardState 1 1) 0 (fun row =>
    { row with stable_num := max row.stable_num (minSeq (initShardState 1 1)) })

/-- Witness for C1: the chain holds at the initial (reachable) state of a
one-member one-sender shard, and the frame conclusion holds for a concrete
stability step from it. -/
theorem C1_invariant_chain_witness :
    (((initShardState 1 1).rows 0).persisted_num ≤
        ((initShardState 1 1).rows 0).delivered_num ∧
      ((initShardState 1 1).rows 0).delivered_num ≤
        ((initShardState 1 1).rows 0).stable_num ∧
      ((initShardState 1 1).rows 0).stable_num ≤
        ((initShardState 1 1).rows 0).seq_num) ∧
    @FrameAt 1 1 (StepLabel.stability 0) 0 ((initShardState 1 1).rows 0)
      (c1StabState.rows 0) := by
  constructor
  · exact C1_invariant_chain.2.1 _ Relation.ReflTransGen.refl 0
  · exact C1_invariant_chain.2.2 _ _ _ Relation.ReflTransGen.refl
      (Step.stability _ 0) 0

/-! ## Theorems for C9 -/

/-- C9 counterexample: invoked with a filename but an I/O error while reading
the view from stdin, `create_state_file` does not exit with code 2 — the
error escapes `main` (abnormal termination); `main` has no path returning 2. -/
theorem C9_counterexample :
    createStateFileMain ["create_state_file", "out.view"] .ioError
        (fun _ => .ok ()) = .abnormal ∧
    (ExitResult.abnormal ≠ .code 2) := by
  decide

/-- C9 (amended): `create_state_file` exits with code 1 when invoked with fewer
than two arguments, with code 0 when parsing and persisting both succeed, and
has no execution that exits with code 2 — an I/O error propagates as an
uncaught exception (abnormal termination) instead. -/
theorem C9_exit_codes (args : List String) (pv : CallOutcome ℕ)
    (po : ℕ → CallOutcome Unit) :
    (args.length < 2 → createStateFileMain args pv po = .code 1) ∧
    (∀ v, 2 ≤ args.length → pv = .ok v → po v = .ok () →
      createStateFileMain args pv po = .code 0) ∧
    createStateFileMain args pv po ≠ .code 2 := by
  refine ⟨fun h => by simp [createStateFileMain, h], fun v hlen hpv hpo => ?_, ?_⟩
  · simp [createStateFileMain, Nat.not_lt.mpr hlen, hpv, hpo]
  · unfold createStateFileMain
    split
    · simp
    · cases pv with
      | ioError => simp
      | ok v =>
        cases hpo : po v with
        | ioError => simp [hpo]
        | ok u => simp [hpo]

/-- Witness for C9: the amended statement applied at concrete inputs — a
one-argument invocation exits 1, a successful run exits 0, and an I/O-error
run does not produce exit code 2. -/
theorem C9_exit_codes_witness :
    createStateFileMain ["create_state_file"] (.ok 0) (fun _ => .ok ()) = .code 1 ∧
    createStateFileMain ["create_state_file", "f"] (.ok 0) (fun _ => .ok ()) = .code 0 ∧
    createStateFileMain ["create_state_file", "f"] .ioError (fun _ => .ok ()) ≠ .code 2 := by
  refine ⟨?_, ?_, ?_⟩
  · exact (C9_exit_codes ["create_state_file"] (.ok 0) (fun _ => .ok ())).1 (by decide)
  · exact (C9_exit_codes ["create_state_file", "f"] (.ok 0) (fun _ => .ok ())).2.1 0
      (by decide) rfl rfl
  · exact (C9_exit_codes ["create_state_file", "f"] .ioError (fun _ => .ok ())).2.2

end Derecho
